import Mathlib

/-!
Verification of the bamtools split tool (src/src/toolkit/bamtools_split.cpp).

The tool is a streaming record demultiplexer: it reads alignment records one
by one and routes each to a lazily-created output writer (sink) keyed by a
per-record partition key (mapped flag, paired flag, reference id, or a typed
tag value).  We embed the data model and the split drivers as executable Lean
functions and prove the routing, error-handling and filename-stub properties
stated in the specification.

Modelling conventions:
  - A record (BamAlignment) carries the queryable fields the split code uses:
    the mapped and paired flags, the reference id, and the list of named tags.
  - External I/O is modelled by oracles: writer.Open is a fallible operation
    whose outcome is given by an oracle (String → Bool) over filenames; the
    driver in the source ignores this outcome, and the model records it in
    the sink (field openOk) exactly as the source stores the writer after an
    unchecked Open call.
  - The writer pool (a std::map from key to writer) is an association list in
    insertion order; lookup is exact key equality, as in the source.  The
    iteration order of teardown does not affect any stated property.
  - Float tag payloads are carried by their bit pattern (a Nat); no claim
    depends on floating-point semantics.
  - vector::at is a bounds-checked lookup (vectorAt) returning Option; an
    out-of-range access makes the run end in the aborted state (the uncaught
    std::out_of_range of the source).
-/

namespace BamTools

/-- Reference-sequence entry of the shared reference table (RefData of the
BamTools API: a name and a length; only the name is used by the split tool). -/
structure RefData where
  RefName : String
  RefLength : Int
deriving DecidableEq, Repr

/-- Value of a named tag together with its BAM storage-class code.  The code
character is what BamAlignment::GetTagType reports: signed integers use
one of 'c', 's', 'i'; unsigned integers one of 'C', 'S', 'I'; floats 'f';
text values one of 'A', 'Z', 'H'.  Any other code is an unsupported storage
class (tagOther).  Float payloads are carried as their bit pattern. -/
inductive TagValue where
  | tagInt (code : Char) (v : Int)
  | tagUInt (code : Char) (v : Nat)
  | tagReal (bits : Nat)
  | tagStr (code : Char) (s : String)
  | tagOther (code : Char)
deriving DecidableEq, Repr

/-- Storage-class code of a tag value, as reported by GetTagType. -/
def TagValue.typeCode : TagValue → Char
  | .tagInt c _ => c
  | .tagUInt c _ => c
  | .tagReal _ => 'f'
  | .tagStr c _ => c
  | .tagOther c => c

/-- One alignment record, exposing exactly what the split tool queries:
IsMapped(), IsPaired(), RefID, and the optional named tags. -/
structure BamAlignment where
  IsMapped : Bool
  IsPaired : Bool
  RefID : Int
  tags : List (String × TagValue)
deriving DecidableEq, Repr

/-- Lookup of a named tag on a record (the FindTag step shared by the GetTag
family): the first tag with the given name, if any. -/
def BamAlignment.findTag (al : BamAlignment) (tg : String) : Option TagValue :=
  (al.tags.find? (fun p => p.1 == tg)).map (fun p => p.2)

/-- BamAlignment::GetTagType: the storage-class code of the named tag when the
record carries it, nothing when the tag is absent. -/
def BamAlignment.GetTagType (al : BamAlignment) (tg : String) : Option Char :=
  (al.findTag tg).map TagValue.typeCode

/-- Modelled from the spec: BamAlignment::GetTag with a signed-integer
destination is code of this repository that is not under src/.  Per the spec
(section 4.2), once a typed path is locked in, extraction "simply proceeds
reading the locked-in type": a present tag of an integer storage class reads
as a signed value (byte-level reinterpretation of out-of-range unsigned
payloads is not modelled; no claim exercises it), while text and float
payloads cannot be read as the locked-in integer type; an absent tag reads
as nothing. -/
def BamAlignment.GetTagInt (al : BamAlignment) (tg : String) : Option Int :=
  match al.findTag tg with
  | some (.tagInt _ v) => some v
  | some (.tagUInt _ v) => some (v : Int)
  | _ => none

/-- Modelled from the spec: BamAlignment::GetTag with an unsigned-integer
destination is not under src/; same reading as GetTagInt with the roles of
the integer families swapped (a signed payload reinterprets by its
two's-complement image). -/
def BamAlignment.GetTagUInt (al : BamAlignment) (tg : String) : Option Nat :=
  match al.findTag tg with
  | some (.tagUInt _ v) => some v
  | some (.tagInt _ v) => some ((v % ((2 : Int) ^ 32)).toNat)
  | _ => none

/-- Modelled from the spec: BamAlignment::GetTag with a float destination is
not under src/; a float-class payload reads as its bit pattern, other
storage classes cannot be read on the float path. -/
def BamAlignment.GetTagReal (al : BamAlignment) (tg : String) : Option Nat :=
  match al.findTag tg with
  | some (.tagReal bits) => some bits
  | _ => none

/-- Modelled from the spec: BamAlignment::GetTag with a text destination is
not under src/.  Per the spec, once the text path is locked in, "extraction
simply proceeds reading the locked-in type": any present tag reads as text.
The text image of a non-text payload stands in for the raw byte
reinterpretation the binary format would produce; no claim depends on which
string it is. -/
def BamAlignment.GetTagString (al : BamAlignment) (tg : String) : Option String :=
  match al.findTag tg with
  | some (.tagStr _ s) => some s
  | some (.tagInt _ v) => some (toString v)
  | some (.tagUInt _ v) => some (toString v)
  | some (.tagReal bits) => some (toString bits)
  | some (.tagOther _) => some ""
  | none => none

/-- PartitionKey: the tagged union of the key types the four split modes use
(a boolean for mapped/paired, a reference id, or one of the four typed tag
values).  Each run only ever compares keys of a single variant, mirroring the
single-key-type std::map of each split function. -/
inductive PartitionKey where
  | boolKey (b : Bool)
  | refKey (i : Int)
  | tagIntKey (v : Int)
  | tagUIntKey (v : Nat)
  | tagFloatKey (bits : Nat)
  | tagStrKey (s : String)
deriving DecidableEq, Repr

/-- One open output writer of the pool: its partition key, the filename it
was opened at, the outcome of the (unchecked) Open call, and the records
saved to it in arrival order. -/
structure Sink where
  key : PartitionKey
  filename : String
  openOk : Bool
  records : List BamAlignment
deriving DecidableEq, Repr

/-- The writer pool: writers in insertion order, keyed by partition key. -/
abbrev Pool := List Sink

/-- One routing step of every split loop: look the key up in the pool
(std::map::find); if a writer exists, save the record to it, otherwise open
a new writer at the given filename (outcome from the oracle), insert it and
save the record to it. -/
def poolRoute (k : PartitionKey) (fname : String) (oracle : String → Bool)
    (al : BamAlignment) : Pool → Pool
  | [] => [⟨k, fname, oracle fname, [al]⟩]
  | s :: rest =>
    if s.key = k then { s with records := s.records ++ [al] } :: rest
    else s :: poolRoute k fname oracle al rest

/-- The shared shape of every split loop: read records in order; a record
with no determinable key is skipped, otherwise it is routed through the
pool.  The filename of a newly opened writer is a function of its key. -/
def routeFold (key : BamAlignment → Option PartitionKey)
    (fname : PartitionKey → String) (oracle : String → Bool) :
    List BamAlignment → Pool → Pool
  | [], pool => pool
  | al :: rest, pool =>
    routeFold key fname oracle rest
      (match key al with
       | none => pool
       | some k => poolRoute k (fname k) oracle al pool)

/-- Filename of a mapped-mode sink: stub plus .MAPPED or .UNMAPPED plus the
fixed extension. -/
def mappedFname (stub : String) : PartitionKey → String
  | .boolKey b => stub ++ (if b then ".MAPPED" else ".UNMAPPED") ++ ".bam"
  | _ => ""

/-- Filename of a paired-mode sink: stub plus .PAIRED_END or .SINGLE_END. -/
def pairedFname (stub : String) : PartitionKey → String
  | .boolKey b => stub ++ (if b then ".PAIRED_END" else ".SINGLE_END") ++ ".bam"
  | _ => ""

/-- SplitTool::SplitToolPrivate::SplitMapped, lines 183-231: route every
record by its IsMapped flag, opening the writer for a value on first
encounter; the Open outcome is not checked; teardown closes every writer and
the function returns true on every path. -/
def SplitMapped (stub : String) (oracle : String → Bool)
    (records : List BamAlignment) : Bool × Pool :=
  (true, routeFold (fun al => some (PartitionKey.boolKey al.IsMapped))
    (mappedFname stub) oracle records [])

/-- SplitTool::SplitToolPrivate::SplitPaired, lines 233-281: identical to
SplitMapped with the IsPaired flag and the paired/single name tokens. -/
def SplitPaired (stub : String) (oracle : String → Bool)
    (records : List BamAlignment) : Bool × Pool :=
  (true, routeFold (fun al => some (PartitionKey.boolKey al.IsPaired))
    (pairedFname stub) oracle records [])

/-- Bounds-checked element access of the shared reference table
(m_references.at(id) with m_references a std::vector): some entry for an
index in range, none (std::out_of_range) otherwise; a negative id converts
to a size_t far beyond any size, hence is out of range. -/
def vectorAt (refs : List RefData) (i : Int) : Option RefData :=
  if 0 ≤ i then refs[i.toNat]? else none

/-- Filename of a reference-mode sink, written through the bounds-checked
name lookup; the default never surfaces on an executed open, because the
split loop aborts when the lookup fails before opening. -/
def refFname (stub : String) (refs : List RefData) (i : Int) : String :=
  stub ++ ".REF_" ++ (((vectorAt refs i).map RefData.RefName).getD "") ++ ".bam"

/-- Outcome of one split run: normal completion with a success flag and the
final pool, or an abort by an uncaught lookup exception carrying the pool
open at the moment of the throw. -/
inductive RunOutcome where
  | completed (success : Bool) (pool : Pool)
  | aborted (pool : Pool)
deriving DecidableEq, Repr

/-- Loop of SplitTool::SplitToolPrivate::SplitReference, lines 283-332: route
by RefID; on first encounter of a key the reference name is looked up with
the bounds-checked at(), so an out-of-range id ends the run in the aborted
state with the pool open at that point.  When the sink already exists the
filename argument of poolRoute is not used; the canonical name is passed for
uniformity. -/
def SplitReferenceLoop (stub : String) (refs : List RefData)
    (oracle : String → Bool) : List BamAlignment → Pool → RunOutcome
  | [], pool => .completed true pool
  | al :: rest, pool =>
    if PartitionKey.refKey al.RefID ∈ pool.map Sink.key then
      SplitReferenceLoop stub refs oracle rest
        (poolRoute (PartitionKey.refKey al.RefID) (refFname stub refs al.RefID)
          oracle al pool)
    else
      match vectorAt refs al.RefID with
      | none => .aborted pool
      | some rd =>
        SplitReferenceLoop stub refs oracle rest
          (poolRoute (PartitionKey.refKey al.RefID)
            (stub ++ ".REF_" ++ rd.RefName ++ ".bam") oracle al pool)

/-- SplitTool::SplitToolPrivate::SplitReference, lines 283-332. -/
def SplitReference (stub : String) (refs : List RefData)
    (oracle : String → Bool) (records : List BamAlignment) : RunOutcome :=
  SplitReferenceLoop stub refs oracle records []

/-- Key extraction of the locked signed-integer tag path. -/
def intKeyOf (tg : String) (al : BamAlignment) : Option PartitionKey :=
  (al.GetTagInt tg).map PartitionKey.tagIntKey

/-- Key extraction of the locked unsigned-integer tag path. -/
def uintKeyOf (tg : String) (al : BamAlignment) : Option PartitionKey :=
  (al.GetTagUInt tg).map PartitionKey.tagUIntKey

/-- Key extraction of the locked float tag path. -/
def realKeyOf (tg : String) (al : BamAlignment) : Option PartitionKey :=
  (al.GetTagReal tg).map PartitionKey.tagFloatKey

/-- Key extraction of the locked text tag path. -/
def strKeyOf (tg : String) (al : BamAlignment) : Option PartitionKey :=
  (al.GetTagString tg).map PartitionKey.tagStrKey

/-- Filename of a tag-mode sink: stub, the TAG_ token, the tag name and the
streamed image of the value (an integer streams as its decimal image, a text
value as itself, a float payload by its modelled bit pattern). -/
def tagFname (stub tg : String) : PartitionKey → String
  | .tagIntKey v => stub ++ ".TAG_" ++ tg ++ "_" ++ toString v ++ ".bam"
  | .tagUIntKey v => stub ++ ".TAG_" ++ tg ++ "_" ++ toString v ++ ".bam"
  | .tagFloatKey bits => stub ++ ".TAG_" ++ tg ++ "_" ++ toString bits ++ ".bam"
  | .tagStrKey s => stub ++ ".TAG_" ++ tg ++ "_" ++ s ++ ".bam"
  | _ => ""

/-- SplitTool::SplitToolPrivate::SplitTag_Int, lines 376-448: the record that
locked the path is handled first (if its value extracts, a writer is opened
and it is saved there), then the remaining records are routed by the loop;
the function returns true on every path. -/
def SplitTag_Int (stub tg : String) (oracle : String → Bool)
    (al : BamAlignment) (rest : List BamAlignment) : Bool × Pool :=
  let firstPool : Pool :=
    match intKeyOf tg al with
    | some k => [⟨k, tagFname stub tg k, oracle (tagFname stub tg k), [al]⟩]
    | none => []
  (true, routeFold (intKeyOf tg) (tagFname stub tg) oracle rest firstPool)

/-- SplitTool::SplitToolPrivate::SplitTag_UInt, lines 450-524: as
SplitTag_Int on the unsigned path (the alignmentsIgnored counter of the
source has no observable effect and is not modelled). -/
def SplitTag_UInt (stub tg : String) (oracle : String → Bool)
    (al : BamAlignment) (rest : List BamAlignment) : Bool × Pool :=
  let firstPool : Pool :=
    match uintKeyOf tg al with
    | some k => [⟨k, tagFname stub tg k, oracle (tagFname stub tg k), [al]⟩]
    | none => []
  (true, routeFold (uintKeyOf tg) (tagFname stub tg) oracle rest firstPool)

/-- SplitTool::SplitToolPrivate::SplitTag_Real, lines 526-598: as
SplitTag_Int on the float path. -/
def SplitTag_Real (stub tg : String) (oracle : String → Bool)
    (al : BamAlignment) (rest : List BamAlignment) : Bool × Pool :=
  let firstPool : Pool :=
    match realKeyOf tg al with
    | some k => [⟨k, tagFname stub tg k, oracle (tagFname stub tg k), [al]⟩]
    | none => []
  (true, routeFold (realKeyOf tg) (tagFname stub tg) oracle rest firstPool)

/-- SplitTool::SplitToolPrivate::SplitTag_String, lines 600-672: as
SplitTag_Int on the text path. -/
def SplitTag_String (stub tg : String) (oracle : String → Bool)
    (al : BamAlignment) (rest : List BamAlignment) : Bool × Pool :=
  let firstPool : Pool :=
    match strKeyOf tg al with
    | some k => [⟨k, tagFname stub tg k, oracle (tagFname stub tg k), [al]⟩]
    | none => []
  (true, routeFold (strKeyOf tg) (tagFname stub tg) oracle rest firstPool)

/-- SplitTool::SplitToolPrivate::SplitTag, lines 334-374: scan records until
the first one that carries the named tag, then dispatch on its storage-class
code; a code outside the four recognized families stops the run with an
error report naming the code (the fprintf to stderr is modelled by the third
component of the result) and no writer opened; exhausting the source without
finding the tag is success with no writer opened. -/
def SplitTag (stub tg : String) (oracle : String → Bool) :
    List BamAlignment → Bool × Pool × Option Char
  | [] => (true, [], none)
  | al :: rest =>
    match al.GetTagType tg with
    | none => SplitTag stub tg oracle rest
    | some tagType =>
      if tagType == 'c' || tagType == 's' || tagType == 'i' then
        ((SplitTag_Int stub tg oracle al rest).1,
         (SplitTag_Int stub tg oracle al rest).2, none)
      else if tagType == 'C' || tagType == 'S' || tagType == 'I' then
        ((SplitTag_UInt stub tg oracle al rest).1,
         (SplitTag_UInt stub tg oracle al rest).2, none)
      else if tagType == 'f' then
        ((SplitTag_Real stub tg oracle al rest).1,
         (SplitTag_Real stub tg oracle al rest).2, none)
      else if tagType == 'A' || tagType == 'Z' || tagType == 'H' then
        ((SplitTag_String stub tg oracle al rest).1,
         (SplitTag_String stub tg oracle al rest).2, none)
      else (false, [], some tagType)

/-- The four user-selectable split modes of the driver. -/
inductive SplitMode where
  | mapped
  | paired
  | reference
  | tagged (tg : String)
deriving DecidableEq, Repr

/-- Mode dispatch of SplitTool::SplitToolPrivate::Run, lines 173-176: run the
selected split function; mapped, paired and tag runs always complete (only
their success flag varies), a reference run can end in the aborted state. -/
def runSplit (mode : SplitMode) (stub : String) (refs : List RefData)
    (oracle : String → Bool) (records : List BamAlignment) : RunOutcome :=
  match mode with
  | .mapped =>
    RunOutcome.completed (SplitMapped stub oracle records).1
      (SplitMapped stub oracle records).2
  | .paired =>
    RunOutcome.completed (SplitPaired stub oracle records).1
      (SplitPaired stub oracle records).2
  | .reference => SplitReference stub refs oracle records
  | .tagged tg =>
    RunOutcome.completed (SplitTag stub tg oracle records).1
      (SplitTag stub tg oracle records).2.1

/-- SplitTool::Run, lines 721-724: the boolean result of the run maps to the
process exit status, 0 on success and 1 on failure. -/
def toolExitCode (ok : Bool) : Nat := if ok then 0 else 1

/-- Storage-class code of the first record of the input that carries the
named tag: the code the tag-mode driver locks its typed path onto. -/
def lockedClass (tg : String) (records : List BamAlignment) : Option Char :=
  (records.filterMap (fun al => al.GetTagType tg)).head?

/-- A storage-class code belongs to one of the four recognized families. -/
def classSupported (c : Char) : Bool :=
  c == 'c' || c == 's' || c == 'i' || c == 'C' || c == 'S' || c == 'I' ||
  c == 'f' || c == 'A' || c == 'Z' || c == 'H'

/-- Key extractor of a tag run as a function of the locked storage class:
no class locked (or an unsupported class locked) determines no key for any
record; a supported class selects the corresponding typed extraction path. -/
def tagKeyFn (tg : String) : Option Char → BamAlignment → Option PartitionKey
  | none => fun _ => none
  | some c =>
    if c == 'c' || c == 's' || c == 'i' then intKeyOf tg
    else if c == 'C' || c == 'S' || c == 'I' then uintKeyOf tg
    else if c == 'f' then realKeyOf tg
    else if c == 'A' || c == 'Z' || c == 'H' then strKeyOf tg
    else fun _ => none

/-- Success flag of a tag run as a function of the locked storage class. -/
def tagSuccess : Option Char → Bool
  | some c => classSupported c
  | none => true

/-- Storage-class code a tag run reports on the error channel, if any. -/
def tagReported : Option Char → Option Char
  | some c => if classSupported c then none else some c
  | none => none

/-- Key extraction of the reference mode: the reference id of the record
(always determinable). -/
def refKeyOf (al : BamAlignment) : Option PartitionKey :=
  some (PartitionKey.refKey al.RefID)

/-- Reference-mode filename as a function of the partition key. -/
def refFnameK (stub : String) (refs : List RefData) : PartitionKey → String
  | .refKey i => refFname stub refs i
  | _ => ""

/-- The per-record key of a run, by mode; in tag mode it is the extractor of
the path locked onto the first record of the input that carries the tag. -/
def modeKey (mode : SplitMode) (records : List BamAlignment) :
    BamAlignment → Option PartitionKey :=
  match mode with
  | .mapped => fun al => some (PartitionKey.boolKey al.IsMapped)
  | .paired => fun al => some (PartitionKey.boolKey al.IsPaired)
  | .reference => refKeyOf
  | .tagged tg => tagKeyFn tg (lockedClass tg records)

/-- GetTimestampString, lines 34-50: take the human-readable ctime image of
the current time (an environment input, passed as the parameter) and replace
each occurrence of the space character by an underscore.  The source loop
finds the next space strictly after the previous replacement, which is the
pointwise replacement below; no other character, in particular no other
whitespace character, is touched. -/
def replaceSpaces : List Char → List Char
  | [] => []
  | c :: rest => (if c = ' ' then '_' else c) :: replaceSpaces rest

/-- GetTimestampString, lines 34-50 (see replaceSpaces). -/
def GetTimestampString (rawTime : String) : String :=
  String.mk (replaceSpaces rawTime.data)

/-- Index of the last occurrence of the dot character (string::rfind of the
source), if any. -/
def rfindDot : List Char → Option Nat
  | [] => none
  | c :: rest =>
    match rfindDot rest with
    | some i => some (i + 1)
    | none => if c = '.' then some 0 else none

/-- RemoveFilenameExtension, lines 54-57: substr(0, rfind of the dot); when
no dot exists rfind yields npos and substr keeps the whole string. -/
def RemoveFilenameExtension (filename : String) : String :=
  match rfindDot filename.data with
  | some i => String.mk (filename.data.take i)
  | none => filename

/-- SplitTool::SplitSettings, lines 64-91. -/
structure SplitSettings where
  HasInputFilename : Bool
  HasCustomOutputStub : Bool
  IsSplittingMapped : Bool
  IsSplittingPaired : Bool
  IsSplittingReference : Bool
  IsSplittingTag : Bool
  CustomOutputStub : String
  InputFilename : String
  TagToSplit : String
deriving DecidableEq, Repr

/-- SplitTool::SplitToolPrivate::DetermineOutputFilenameStub, lines 139-152:
an explicit stub is used verbatim; otherwise a supplied input filename with
its extension removed; otherwise the timestamp string (rawTime is the ctime
image of the current time, an environment input). -/
def DetermineOutputFilenameStub (settings : SplitSettings) (rawTime : String) :
    String :=
  if settings.HasCustomOutputStub then settings.CustomOutputStub
  else if settings.HasInputFilename then
    RemoveFilenameExtension settings.InputFilename
  else GetTimestampString rawTime

/-! Invariant of the writer pool: at every point of a split loop the pool
holds pairwise-distinct keys; each sink was opened at the filename of its
key with the open outcome the oracle gave for it; each sink holds exactly
the processed records whose key is its key, in arrival order; and every
processed record with a determinable key has a sink for that key. -/

def PoolInv (key : BamAlignment → Option PartitionKey)
    (fname : PartitionKey → String) (oracle : String → Bool)
    (processed : List BamAlignment) (pool : Pool) : Prop :=
  (pool.map Sink.key).Nodup ∧
  (∀ s ∈ pool, s.filename = fname s.key ∧ s.openOk = oracle (fname s.key) ∧
    s.records = processed.filter (fun r => decide (key r = some s.key)) ∧
    s.records ≠ []) ∧
  ∀ r ∈ processed, ∀ k, key r = some k → k ∈ pool.map Sink.key

/-- Pointwise update of the sink holding a given key. -/
def updSink (k : PartitionKey) (al : BamAlignment) (s : Sink) : Sink :=
  if s.key = k then { s with records := s.records ++ [al] } else s

lemma updSink_key (k : PartitionKey) (al : BamAlignment) (s : Sink) :
    (updSink k al s).key = s.key := by
  unfold updSink; split <;> rfl

lemma poolRoute_of_not_mem {k : PartitionKey} {pool : Pool}
    (h : ∀ s ∈ pool, ¬ s.key = k) (fname : String) (oracle : String → Bool)
    (al : BamAlignment) :
    poolRoute k fname oracle al pool = pool ++ [⟨k, fname, oracle fname, [al]⟩] := by
  induction pool with
  | nil => rfl
  | cons s rest ih =>
    have hs : ¬ s.key = k := h s (List.mem_cons_self s rest)
    simp only [poolRoute, if_neg hs, List.cons_append]
    rw [ih (fun t ht => h t (List.mem_cons_of_mem s ht))]

lemma map_updSink_eq_self {k : PartitionKey} {al : BamAlignment} {pool : Pool}
    (h : ∀ s ∈ pool, ¬ s.key = k) : pool.map (updSink k al) = pool := by
  induction pool with
  | nil => rfl
  | cons s rest ih =>
    have hs : ¬ s.key = k := h s (List.mem_cons_self s rest)
    simp only [List.map_cons, updSink, if_neg hs]
    rw [ih (fun t ht => h t (List.mem_cons_of_mem s ht))]

lemma poolRoute_of_mem {k : PartitionKey} {pool : Pool}
    (nd : (pool.map Sink.key).Nodup) (h : k ∈ pool.map Sink.key)
    (fname : String) (oracle : String → Bool) (al : BamAlignment) :
    poolRoute k fname oracle al pool = pool.map (updSink k al) := by
  induction pool with
  | nil => simp at h
  | cons s rest ih =>
    simp only [List.map_cons] at nd h
    by_cases hs : s.key = k
    · have hhead : s.key ∉ rest.map Sink.key := (List.nodup_cons.1 nd).1
      have hnotin : ∀ t ∈ rest, ¬ t.key = k := by
        intro t ht htk
        exact hhead (hs ▸ htk ▸ List.mem_map_of_mem Sink.key ht)
      simp only [poolRoute, if_pos hs, List.map_cons, updSink, if_pos hs]
      rw [map_updSink_eq_self hnotin]
    · have hk : k ∈ rest.map Sink.key := by
        rcases List.mem_cons.1 h with h1 | h1
        · exact absurd h1.symm hs
        · exact h1
      simp only [poolRoute, if_neg hs, List.map_cons, updSink, if_neg hs]
      rw [ih (List.nodup_cons.1 nd).2 hk]

lemma poolInv_skip {key : BamAlignment → Option PartitionKey}
    {fname : PartitionKey → String} {oracle : String → Bool}
    {processed : List BamAlignment} {pool : Pool}
    (inv : PoolInv key fname oracle processed pool)
    {al : BamAlignment} (hk : key al = none) :
    PoolInv key fname oracle (processed ++ [al]) pool := by
  obtain ⟨nd, hsink, hcov⟩ := inv
  refine ⟨nd, ?_, ?_⟩
  · intro s hs
    obtain ⟨hf, ho, hr, hne⟩ := hsink s hs
    refine ⟨hf, ho, ?_, hne⟩
    have hone : List.filter (fun r => decide (key r = some s.key)) [al] = [] := by
      simp [List.filter_cons, hk]
    rw [List.filter_append, hone, List.append_nil]
    exact hr
  · intro r hr k hkr
    rcases List.mem_append.1 hr with h1 | h1
    · exact hcov r h1 k hkr
    · have : r = al := by simpa using h1
      subst this
      rw [hk] at hkr
      cases hkr

lemma poolInv_route {key : BamAlignment → Option PartitionKey}
    {fname : PartitionKey → String} {oracle : String → Bool}
    {processed : List BamAlignment} {pool : Pool}
    (inv : PoolInv key fname oracle processed pool)
    {al : BamAlignment} {k : PartitionKey} (hk : key al = some k) :
    PoolInv key fname oracle (processed ++ [al])
      (poolRoute k (fname k) oracle al pool) := by
  obtain ⟨nd, hsink, hcov⟩ := inv
  by_cases hmem : k ∈ pool.map Sink.key
  · rw [poolRoute_of_mem nd hmem]
    have hkeys : (pool.map (updSink k al)).map Sink.key = pool.map Sink.key := by
      rw [List.map_map]
      exact List.map_congr_left (fun s _ => updSink_key k al s)
    refine ⟨hkeys ▸ nd, ?_, ?_⟩
    · intro s' hs'
      obtain ⟨s, hs, rfl⟩ := List.mem_map.1 hs'
      obtain ⟨hf, ho, hr, hne⟩ := hsink s hs
      by_cases hsk : s.key = k
      · simp only [updSink, if_pos hsk]
        refine ⟨hf, ho, ?_, by simp⟩
        have hone :
            List.filter (fun r => decide (key r = some s.key)) [al] = [al] := by
          simp [List.filter_cons, hk, hsk]
        rw [List.filter_append, hone, hr]
      · simp only [updSink, if_neg hsk]
        refine ⟨hf, ho, ?_, hne⟩
        have hone :
            List.filter (fun r => decide (key r = some s.key)) [al] = [] := by
          have : ¬ k = s.key := fun he => hsk he.symm
          simp [List.filter_cons, hk, this]
        rw [List.filter_append, hone, List.append_nil]
        exact hr
    · intro r hr k' hkr
      rw [hkeys]
      rcases List.mem_append.1 hr with h1 | h1
      · exact hcov r h1 k' hkr
      · have : r = al := by simpa using h1
        subst this
        rw [hk] at hkr
        have : k' = k := by injection hkr.symm
        subst this
        exact hmem
  · have hnone : ∀ s ∈ pool, ¬ s.key = k := by
      intro s hs hsk
      exact hmem (hsk ▸ List.mem_map_of_mem Sink.key hs)
    rw [poolRoute_of_not_mem hnone]
    have hfilnil :
        processed.filter (fun r => decide (key r = some k)) = [] := by
      refine List.filter_eq_nil_iff.2 ?_
      intro r hr hcontr
      have : key r = some k := of_decide_eq_true hcontr
      exact hmem (hcov r hr k this)
    refine ⟨?_, ?_, ?_⟩
    · rw [List.map_append]
      refine List.nodup_append.2 ⟨nd, List.nodup_singleton _, ?_⟩
      intro x hx hx2
      have : x = k := by simpa using hx2
      subst this
      exact hmem hx
    · intro s' hs'
      rcases List.mem_append.1 hs' with h1 | h1
      · obtain ⟨hf, ho, hr, hne⟩ := hsink s' h1
        refine ⟨hf, ho, ?_, hne⟩
        have hone :
            List.filter (fun r => decide (key r = some s'.key)) [al] = [] := by
          have : ¬ k = s'.key := fun he => hnone s' h1 he.symm
          simp [List.filter_cons, hk, this]
        rw [List.filter_append, hone, List.append_nil]
        exact hr
      · have : s' = ⟨k, fname k, oracle (fname k), [al]⟩ := by simpa using h1
        subst this
        refine ⟨rfl, rfl, ?_, by simp⟩
        have hone :
            List.filter (fun r => decide (key r = some k)) [al] = [al] := by
          simp [List.filter_cons, hk]
        simp only [List.filter_append, hone, hfilnil, List.nil_append]
    · intro r hr k' hkr
      rw [List.map_append, List.mem_append]
      rcases List.mem_append.1 hr with h1 | h1
      · exact Or.inl (hcov r h1 k' hkr)
      · have : r = al := by simpa using h1
        subst this
        rw [hk] at hkr
        have : k' = k := by injection hkr.symm
        subst this
        simp

lemma routeFold_inv {key : BamAlignment → Option PartitionKey}
    {fname : PartitionKey → String} {oracle : String → Bool} :
    ∀ (records processed : List BamAlignment) (pool : Pool),
      PoolInv key fname oracle processed pool →
      PoolInv key fname oracle (processed ++ records)
        (routeFold key fname oracle records pool) := by
  intro records
  induction records with
  | nil => intro processed pool inv; simpa [routeFold] using inv
  | cons al rest ih =>
    intro processed pool inv
    have hstep :
        PoolInv key fname oracle (processed ++ [al])
          (match key al with
           | none => pool
           | some k => poolRoute k (fname k) oracle al pool) := by
      cases hk : key al with
      | none => simpa using poolInv_skip inv hk
      | some k => simpa using poolInv_route inv hk
    have := ih (processed ++ [al]) _ hstep
    simpa [routeFold, List.append_assoc] using this

lemma poolInv_nil (key : BamAlignment → Option PartitionKey)
    (fname : PartitionKey → String) (oracle : String → Bool) :
    PoolInv key fname oracle [] [] := by
  refine ⟨List.nodup_nil, ?_, ?_⟩ <;> intro r hr <;> cases hr

lemma routeFold_poolInv (key : BamAlignment → Option PartitionKey)
    (fname : PartitionKey → String) (oracle : String → Bool)
    (records : List BamAlignment) :
    PoolInv key fname oracle records (routeFold key fname oracle records []) := by
  have := routeFold_inv records [] [] (poolInv_nil key fname oracle)
  simpa using this

lemma pool_key_witness {key : BamAlignment → Option PartitionKey}
    {fname : PartitionKey → String} {oracle : String → Bool}
    {records : List BamAlignment} {pool : Pool}
    (inv : PoolInv key fname oracle records pool) {s : Sink} (hs : s ∈ pool) :
    ∃ r ∈ records, key r = some s.key := by
  obtain ⟨_, hsink, _⟩ := inv
  obtain ⟨_, _, hr, hne⟩ := hsink s hs
  cases hfe : records.filter (fun r => decide (key r = some s.key)) with
  | nil => rw [hr, hfe] at hne; exact absurd rfl hne
  | cons x xs =>
    have hx : x ∈ records.filter (fun r => decide (key r = some s.key)) := by
      rw [hfe]; exact List.mem_cons_self x xs
    obtain ⟨hxm, hxp⟩ := List.mem_filter.1 hx
    exact ⟨x, hxm, of_decide_eq_true hxp⟩

lemma pool_disjoint {key : BamAlignment → Option PartitionKey}
    {fname : PartitionKey → String} {oracle : String → Bool}
    {records : List BamAlignment} {pool : Pool}
    (inv : PoolInv key fname oracle records pool) :
    ∀ s ∈ pool, ∀ t ∈ pool, s ≠ t → ∀ r ∈ s.records, r ∉ t.records := by
  obtain ⟨nd, hsink, _⟩ := inv
  intro s hs t ht hst r hrs hrt
  obtain ⟨_, _, hrS, _⟩ := hsink s hs
  obtain ⟨_, _, hrT, _⟩ := hsink t ht
  rw [hrS] at hrs
  rw [hrT] at hrt
  have h1 : key r = some s.key := of_decide_eq_true (List.mem_filter.1 hrs).2
  have h2 : key r = some t.key := of_decide_eq_true (List.mem_filter.1 hrt).2
  have hkey : s.key = t.key := by rw [h1] at h2; injection h2
  exact hst (List.inj_on_of_nodup_map nd hs ht hkey)

lemma length_le_two_of_nodup {l : List PartitionKey} (nd : l.Nodup)
    (h : ∀ x ∈ l, x = PartitionKey.boolKey true ∨ x = PartitionKey.boolKey false) :
    l.length ≤ 2 := by
  match l with
  | [] => simp
  | [_] => simp
  | [_, _] => simp
  | a :: b :: c :: l' =>
    exfalso
    have ha := h a (by simp)
    have hb := h b (by simp)
    have hc := h c (by simp)
    simp only [List.nodup_cons, List.mem_cons] at nd
    rcases ha with rfl | rfl <;> rcases hb with rfl | rfl <;>
      rcases hc with rfl | rfl <;> simp_all

lemma pool_bind_perm_of_le_two {key : BamAlignment → Option PartitionKey}
    {fname : PartitionKey → String} {oracle : String → Bool}
    {records : List BamAlignment} {pool : Pool}
    (inv : PoolInv key fname oracle records pool)
    (htot : ∀ al ∈ records, key al ≠ none) (hlen : pool.length ≤ 2) :
    (pool.flatMap Sink.records).Perm records := by
  obtain ⟨nd, hsink, hcov⟩ := inv
  rcases pool with _ | ⟨s, _ | ⟨t, _ | ⟨u, rest⟩⟩⟩
  · have : records = [] := by
      refine List.eq_nil_iff_forall_not_mem.2 (fun r hr => ?_)
      cases hk : key r with
      | none => exact htot r hr hk
      | some k => have := hcov r hr k hk; simp at this
    simp [this]
  · obtain ⟨_, _, hr, _⟩ := hsink s (by simp)
    have hall : records.filter (fun r => decide (key r = some s.key)) = records := by
      refine List.filter_eq_self.2 (fun r hrm => ?_)
      cases hk : key r with
      | none => exact absurd hk (htot r hrm)
      | some k =>
        have hks := hcov r hrm k hk
        simp at hks
        subst hks
        simp [hk]
    simp only [List.flatMap_cons, List.flatMap_nil, List.append_nil]
    rw [hr, hall]
  · obtain ⟨_, _, hrS, _⟩ := hsink s (by simp)
    obtain ⟨_, _, hrT, _⟩ := hsink t (by simp)
    have hne : s.key ≠ t.key := by
      simp only [List.map_cons, List.map_nil, List.nodup_cons, List.mem_singleton,
        List.not_mem_nil, not_false_iff, List.nodup_nil, and_true] at nd
      exact nd
    have hcong : records.filter (fun r => decide (key r = some t.key)) =
        records.filter (fun r => !(decide (key r = some s.key))) := by
      refine List.filter_congr (fun r hrm => ?_)
      cases hk : key r with
      | none => exact absurd hk (htot r hrm)
      | some k =>
        have hks := hcov r hrm k hk
        simp at hks
        rcases hks with rfl | rfl
        · simp [hk, hne]
        · simp [hk, Ne.symm hne]
    simp only [List.flatMap_cons, List.flatMap_nil, List.append_nil]
    rw [hrS, hrT, hcong]
    exact List.filter_append_perm _ records
  · exfalso
    simp only [List.length_cons] at hlen
    omega

lemma routeFold_none (fname : PartitionKey → String) (oracle : String → Bool) :
    ∀ (l : List BamAlignment) (pool : Pool),
      routeFold (fun _ => none) fname oracle l pool = pool := by
  intro l
  induction l with
  | nil => intro pool; rfl
  | cons al rest ih => intro pool; simpa [routeFold] using ih pool

lemma tagKeyFn_absent {tg : String} {al : BamAlignment}
    (h : al.findTag tg = none) (oc : Option Char) : tagKeyFn tg oc al = none := by
  cases oc with
  | none => rfl
  | some c =>
    simp only [tagKeyFn]
    split_ifs <;>
      simp [intKeyOf, uintKeyOf, realKeyOf, strKeyOf, BamAlignment.GetTagInt,
        BamAlignment.GetTagUInt, BamAlignment.GetTagReal,
        BamAlignment.GetTagString, h]

lemma lockedClass_cons_none {tg : String} {al : BamAlignment}
    {rest : List BamAlignment} (h : al.GetTagType tg = none) :
    lockedClass tg (al :: rest) = lockedClass tg rest := by
  simp [lockedClass, List.filterMap_cons, h]

lemma lockedClass_cons_some {tg : String} {al : BamAlignment}
    {rest : List BamAlignment} {c : Char} (h : al.GetTagType tg = some c) :
    lockedClass tg (al :: rest) = some c := by
  simp [lockedClass, List.filterMap_cons, h]

lemma lockedClass_append {tg : String} {pre : List BamAlignment}
    (h : ∀ r ∈ pre, r.GetTagType tg = none) (l : List BamAlignment) :
    lockedClass tg (pre ++ l) = lockedClass tg l := by
  induction pre with
  | nil => rfl
  | cons a pre ih =>
    have ha := h a (List.mem_cons_self a pre)
    rw [List.cons_append, lockedClass_cons_none ha]
    exact ih (fun r hr => h r (List.mem_cons_of_mem a hr))

lemma lockedClass_none {tg : String} {l : List BamAlignment}
    (h : ∀ r ∈ l, r.GetTagType tg = none) : lockedClass tg l = none := by
  have := lockedClass_append h []
  simpa using this

lemma SplitTag_Int_eq (stub tg : String) (oracle : String → Bool)
    (al : BamAlignment) (rest : List BamAlignment) :
    SplitTag_Int stub tg oracle al rest =
      (true, routeFold (intKeyOf tg) (tagFname stub tg) oracle (al :: rest) []) := by
  cases h : intKeyOf tg al <;> simp [SplitTag_Int, routeFold, h, poolRoute]

lemma SplitTag_UInt_eq (stub tg : String) (oracle : String → Bool)
    (al : BamAlignment) (rest : List BamAlignment) :
    SplitTag_UInt stub tg oracle al rest =
      (true, routeFold (uintKeyOf tg) (tagFname stub tg) oracle (al :: rest) []) := by
  cases h : uintKeyOf tg al <;> simp [SplitTag_UInt, routeFold, h, poolRoute]

lemma SplitTag_Real_eq (stub tg : String) (oracle : String → Bool)
    (al : BamAlignment) (rest : List BamAlignment) :
    SplitTag_Real stub tg oracle al rest =
      (true, routeFold (realKeyOf tg) (tagFname stub tg) oracle (al :: rest) []) := by
  cases h : realKeyOf tg al <;> simp [SplitTag_Real, routeFold, h, poolRoute]

lemma SplitTag_String_eq (stub tg : String) (oracle : String → Bool)
    (al : BamAlignment) (rest : List BamAlignment) :
    SplitTag_String stub tg oracle al rest =
      (true, routeFold (strKeyOf tg) (tagFname stub tg) oracle (al :: rest) []) := by
  cases h : strKeyOf tg al <;> simp [SplitTag_String, routeFold, h, poolRoute]

lemma SplitTag_eq (stub tg : String) (oracle : String → Bool) :
    ∀ records : List BamAlignment,
      SplitTag stub tg oracle records =
        (tagSuccess (lockedClass tg records),
         routeFold (tagKeyFn tg (lockedClass tg records)) (tagFname stub tg)
           oracle records [],
         tagReported (lockedClass tg records)) := by
  intro records
  induction records with
  | nil => rfl
  | cons al rest ih =>
    cases htt : al.GetTagType tg with
    | none =>
      have hft : al.findTag tg = none := by
        simpa [BamAlignment.GetTagType] using htt
      have hstep : SplitTag stub tg oracle (al :: rest) =
          SplitTag stub tg oracle rest := by
        simp [SplitTag, htt]
      have hskip :
          routeFold (tagKeyFn tg (lockedClass tg rest)) (tagFname stub tg)
              oracle (al :: rest) [] =
            routeFold (tagKeyFn tg (lockedClass tg rest)) (tagFname stub tg)
              oracle rest [] := by
        simp [routeFold, tagKeyFn_absent hft]
      rw [hstep, ih, lockedClass_cons_none htt, hskip]
    | some c =>
      rw [lockedClass_cons_some htt]
      by_cases h1 : (c == 'c' || c == 's' || c == 'i') = true
      · have hsup : classSupported c = true := by
          simp only [classSupported, Bool.or_eq_true, beq_iff_eq]
          simp only [Bool.or_eq_true, beq_iff_eq] at h1
          tauto
        have hkey : tagKeyFn tg (some c) = intKeyOf tg := by
          simp [tagKeyFn, h1]
        simp only [SplitTag, htt]
        rw [if_pos h1, SplitTag_Int_eq]
        simp [tagSuccess, tagReported, hsup, hkey]
      · by_cases h2 : (c == 'C' || c == 'S' || c == 'I') = true
        · have hsup : classSupported c = true := by
            simp only [classSupported, Bool.or_eq_true, beq_iff_eq]
            simp only [Bool.or_eq_true, beq_iff_eq] at h2
            tauto
          have hkey : tagKeyFn tg (some c) = uintKeyOf tg := by
            simp [tagKeyFn, h1, h2]
          simp only [SplitTag, htt]
          rw [if_neg h1, if_pos h2, SplitTag_UInt_eq]
          simp [tagSuccess, tagReported, hsup, hkey]
        · by_cases h3 : (c == 'f') = true
          · have hsup : classSupported c = true := by
              simp only [classSupported, Bool.or_eq_true, beq_iff_eq]
              simp only [beq_iff_eq] at h3
              tauto
            have hkey : tagKeyFn tg (some c) = realKeyOf tg := by
              simp [tagKeyFn, h1, h2, h3]
            simp only [SplitTag, htt]
            rw [if_neg h1, if_neg h2, if_pos h3, SplitTag_Real_eq]
            simp [tagSuccess, tagReported, hsup, hkey]
          · by_cases h4 : (c == 'A' || c == 'Z' || c == 'H') = true
            · have hsup : classSupported c = true := by
                simp only [classSupported, Bool.or_eq_true, beq_iff_eq]
                simp only [Bool.or_eq_true, beq_iff_eq] at h4
                tauto
              have hkey : tagKeyFn tg (some c) = strKeyOf tg := by
                simp [tagKeyFn, h1, h2, h3, h4]
              simp only [SplitTag, htt]
              rw [if_neg h1, if_neg h2, if_neg h3, if_pos h4, SplitTag_String_eq]
              simp [tagSuccess, tagReported, hsup, hkey]
            · have hsup : classSupported c = false := by
                simp only [classSupported, Bool.or_eq_false_iff, beq_eq_false_iff_ne, ne_eq]
                simp only [Bool.or_eq_true, beq_iff_eq, not_or] at h1 h2 h4
                simp only [beq_iff_eq] at h3
                tauto
              have hkey : tagKeyFn tg (some c) = fun _ => none := by
                simp [tagKeyFn, h1, h2, h3, h4]
              simp only [SplitTag, htt]
              rw [if_neg h1, if_neg h2, if_neg h3, if_neg h4]
              simp [tagSuccess, tagReported, hsup, hkey, routeFold_none]

lemma routeFold_cons_ref (stub : String) (refs : List RefData)
    (oracle : String → Bool) (al : BamAlignment) (rest : List BamAlignment)
    (pool : Pool) :
    routeFold refKeyOf (refFnameK stub refs) oracle (al :: rest) pool =
      routeFold refKeyOf (refFnameK stub refs) oracle rest
        (poolRoute (PartitionKey.refKey al.RefID) (refFname stub refs al.RefID)
          oracle al pool) := by
  simp [routeFold, refKeyOf, refFnameK]

lemma vectorAt_valid {refs : List RefData} {i : Int} (h0 : 0 ≤ i)
    (hlt : i.toNat < refs.length) : ∃ rd, vectorAt refs i = some rd := by
  cases hg : refs[i.toNat]? with
  | none =>
    have := List.getElem?_eq_none_iff.1 hg
    omega
  | some rd => exact ⟨rd, by simp [vectorAt, if_pos h0, hg]⟩

lemma vectorAt_invalid {refs : List RefData} {i : Int}
    (h : ¬(0 ≤ i ∧ i.toNat < refs.length)) : vectorAt refs i = none := by
  by_cases h0 : 0 ≤ i
  · have hlt : ¬ i.toNat < refs.length := fun hl => h ⟨h0, hl⟩
    simp [vectorAt, if_pos h0, List.getElem?_eq_none (le_of_not_lt hlt)]
  · simp [vectorAt, if_neg h0]

lemma SplitReferenceLoop_append (stub : String) (refs : List RefData)
    (oracle : String → Bool) :
    ∀ (l₁ l₂ : List BamAlignment) (pool : Pool),
      (∀ r ∈ l₁, 0 ≤ r.RefID ∧ r.RefID.toNat < refs.length) →
      SplitReferenceLoop stub refs oracle (l₁ ++ l₂) pool =
        SplitReferenceLoop stub refs oracle l₂
          (routeFold refKeyOf (refFnameK stub refs) oracle l₁ pool) := by
  intro l₁
  induction l₁ with
  | nil => intro l₂ pool _; simp [routeFold]
  | cons al rest ih =>
    intro l₂ pool h
    obtain ⟨h0, hlt⟩ := h al (List.mem_cons_self al rest)
    obtain ⟨rd, hrd⟩ := vectorAt_valid h0 hlt
    rw [routeFold_cons_ref]
    by_cases hmem : PartitionKey.refKey al.RefID ∈ pool.map Sink.key
    · rw [List.cons_append]
      simp only [SplitReferenceLoop, if_pos hmem]
      exact ih l₂ _ (fun r hr => h r (List.mem_cons_of_mem al hr))
    · rw [List.cons_append]
      simp only [SplitReferenceLoop, if_neg hmem, hrd]
      have hfn : stub ++ ".REF_" ++ rd.RefName ++ ".bam" =
          refFname stub refs al.RefID := by
        simp [refFname, hrd]
      rw [hfn]
      exact ih l₂ _ (fun r hr => h r (List.mem_cons_of_mem al hr))

lemma SplitReference_valid {stub : String} {refs : List RefData}
    {oracle : String → Bool} {records : List BamAlignment}
    (h : ∀ r ∈ records, 0 ≤ r.RefID ∧ r.RefID.toNat < refs.length) :
    SplitReference stub refs oracle records =
      RunOutcome.completed true
        (routeFold refKeyOf (refFnameK stub refs) oracle records []) := by
  have hx := SplitReferenceLoop_append stub refs oracle records [] [] h
  rw [List.append_nil] at hx
  simpa [SplitReference, SplitReferenceLoop] using hx

lemma SplitReference_abort {stub : String} {refs : List RefData}
    {oracle : String → Bool} {pre : List BamAlignment} {al : BamAlignment}
    (rest : List BamAlignment)
    (hpre : ∀ r ∈ pre, 0 ≤ r.RefID ∧ r.RefID.toNat < refs.length)
    (hal : ¬(0 ≤ al.RefID ∧ al.RefID.toNat < refs.length)) :
    SplitReference stub refs oracle (pre ++ al :: rest) =
      RunOutcome.aborted
        (routeFold refKeyOf (refFnameK stub refs) oracle pre []) ∧
    PartitionKey.refKey al.RefID ∉
      (routeFold refKeyOf (refFnameK stub refs) oracle pre []).map Sink.key := by
  have inv := routeFold_poolInv refKeyOf (refFnameK stub refs) oracle pre
  have hnotmem : PartitionKey.refKey al.RefID ∉
      (routeFold refKeyOf (refFnameK stub refs) oracle pre []).map Sink.key := by
    intro hmem
    obtain ⟨s, hs, hks⟩ := List.mem_map.1 hmem
    obtain ⟨r, hr, hkr⟩ := pool_key_witness inv hs
    have hkr2 : PartitionKey.refKey r.RefID = s.key := by
      simp only [refKeyOf, Option.some.injEq] at hkr
      exact hkr
    have : r.RefID = al.RefID := by
      rw [hks] at hkr2
      injection hkr2
    exact hal (this ▸ hpre r hr)
  refine ⟨?_, hnotmem⟩
  show SplitReferenceLoop stub refs oracle (pre ++ al :: rest) [] = _
  rw [SplitReferenceLoop_append stub refs oracle pre (al :: rest) [] hpre]
  simp [SplitReferenceLoop, hnotmem, vectorAt_invalid hal]

lemma SplitTag_all_absent (stub tg : String) (oracle : String → Bool)
    {records : List BamAlignment}
    (h : ∀ al ∈ records, al.GetTagType tg = none) :
    SplitTag stub tg oracle records = (true, [], none) := by
  have he := SplitTag_eq stub tg oracle records
  rw [lockedClass_none h] at he
  rw [show tagKeyFn tg none = fun _ => none from rfl, routeFold_none] at he
  exact he

lemma tagKeyFn_unsupported {tg : String} {c : Char}
    (hc : classSupported c = false) : tagKeyFn tg (some c) = fun _ => none := by
  simp only [classSupported, Bool.or_eq_false_iff, beq_eq_false_iff_ne, ne_eq] at hc
  simp only [tagKeyFn]
  split_ifs with g1 g2 g3 g4
  · exfalso; simp only [Bool.or_eq_true, beq_iff_eq] at g1; tauto
  · exfalso; simp only [Bool.or_eq_true, beq_iff_eq] at g2; tauto
  · exfalso; simp only [beq_iff_eq] at g3; tauto
  · exfalso; simp only [Bool.or_eq_true, beq_iff_eq] at g4; tauto
  · rfl

lemma tagKeyFn_string {tg : String} {c : Char}
    (hc : (c == 'A' || c == 'Z' || c == 'H') = true) :
    tagKeyFn tg (some c) = strKeyOf tg := by
  simp only [Bool.or_eq_true, beq_iff_eq] at hc
  rcases hc with (rfl | rfl) | rfl <;> rfl

lemma boolSplit_partition (p : BamAlignment → Bool) (fname : PartitionKey → String)
    (oracle : String → Bool) (records : List BamAlignment) :
    (routeFold (fun al => some (PartitionKey.boolKey (p al))) fname oracle
        records []).length ≤ 2 ∧
    ((routeFold (fun al => some (PartitionKey.boolKey (p al))) fname oracle
        records []).flatMap Sink.records).Perm records ∧
    ∀ s ∈ routeFold (fun al => some (PartitionKey.boolKey (p al))) fname oracle
        records [],
      ∀ t ∈ routeFold (fun al => some (PartitionKey.boolKey (p al))) fname oracle
        records [], s ≠ t → ∀ r ∈ s.records, r ∉ t.records := by
  have inv := routeFold_poolInv (fun al => some (PartitionKey.boolKey (p al)))
    fname oracle records
  have hkeys : ∀ x ∈ (routeFold (fun al => some (PartitionKey.boolKey (p al)))
      fname oracle records []).map Sink.key,
      x = PartitionKey.boolKey true ∨ x = PartitionKey.boolKey false := by
    intro x hx
    obtain ⟨s, hs, hxeq⟩ := List.mem_map.1 hx
    obtain ⟨r, _, hkr⟩ := pool_key_witness inv hs
    simp only [Option.some.injEq] at hkr
    cases hp : p r
    · right; rw [← hxeq, ← hkr, hp]
    · left; rw [← hxeq, ← hkr, hp]
  have hlen : (routeFold (fun al => some (PartitionKey.boolKey (p al))) fname
      oracle records []).length ≤ 2 := by
    have := length_le_two_of_nodup inv.1 hkeys
    simpa [List.length_map] using this
  exact ⟨hlen, pool_bind_perm_of_le_two inv (fun al _ => by simp) hlen,
    pool_disjoint inv⟩

lemma rfindDot_eq_none {cs : List Char} (h : '.' ∉ cs) : rfindDot cs = none := by
  induction cs with
  | nil => rfl
  | cons c rest ih =>
    have hc : ¬ c = '.' := fun he => h (he ▸ List.mem_cons_self c rest)
    have hr := ih (fun hm => h (List.mem_cons_of_mem c hm))
    simp [rfindDot, hr, hc]

lemma replaceSpaces_no_space :
    ∀ cs : List Char, (replaceSpaces cs).all (fun c => decide (c ≠ ' ')) = true := by
  intro cs
  induction cs with
  | nil => rfl
  | cons c rest ih =>
    simp only [replaceSpaces, List.all_cons, Bool.and_eq_true]
    refine ⟨?_, ih⟩
    split_ifs with h <;> simp [h]

lemma replaceSpaces_length :
    ∀ cs : List Char, (replaceSpaces cs).length = cs.length := by
  intro cs
  induction cs with
  | nil => rfl
  | cons c rest ih => simp [replaceSpaces, ih]

/-! Claim theorems. -/

/-- Claim C1, counterexample: in reference mode a record whose reference id
is -1 (as every unmapped record carries) has a determinable partition key —
the reference-mode key is the record's id, with no failure case — yet the
run aborts on the bounds-checked name lookup of that id and the record is
written to no sink: the run ends aborted with an empty pool.  The claim's
routing property, quantified over every split mode and input, therefore
fails on reference mode. -/
theorem C1_counterexample :
    runSplit SplitMode.reference ("s") [⟨"chr1", 100⟩] (fun _ => true)
        [⟨false, false, -1, []⟩] = RunOutcome.aborted [] ∧
    modeKey SplitMode.reference [⟨false, false, -1, []⟩] ⟨false, false, -1, []⟩ =
      some (PartitionKey.refKey (-1)) := by
  exact ⟨by decide, by decide⟩

/-- Claim C1 (amended): for every split mode and every input — provided, in
reference mode, that every record's reference id is a valid index into the
reference table (otherwise the run aborts at the first invalid id and that
record and all later ones are written to no sink, see C1_counterexample) —
the run completes and routes exactly once while preserving order: the pool's
keys are pairwise distinct, each sink's contents are precisely the input
records whose key under the run's key extractor is that sink's key, kept in
input order, and every record with a determinable key has a sink for its
key; a record with no determinable key (tag absent in tag mode, or any
record of a run locked onto an unsupported storage class) is in no sink. -/
theorem C1_routing (mode : SplitMode) (stub : String) (refs : List RefData)
    (oracle : String → Bool) (records : List BamAlignment)
    (href : mode = SplitMode.reference →
      ∀ al ∈ records, 0 ≤ al.RefID ∧ al.RefID.toNat < refs.length) :
    ∃ ok pool, runSplit mode stub refs oracle records =
        RunOutcome.completed ok pool ∧
      (pool.map Sink.key).Nodup ∧
      (∀ s ∈ pool, s.records =
        records.filter (fun r => decide (modeKey mode records r = some s.key))) ∧
      (∀ al ∈ records, ∀ k, modeKey mode records al = some k →
        k ∈ pool.map Sink.key) := by
  cases mode with
  | mapped =>
    have inv := routeFold_poolInv
      (fun al => some (PartitionKey.boolKey al.IsMapped)) (mappedFname stub)
      oracle records
    exact ⟨true, _, rfl, inv.1, fun s hs => (inv.2.1 s hs).2.2.1, inv.2.2⟩
  | paired =>
    have inv := routeFold_poolInv
      (fun al => some (PartitionKey.boolKey al.IsPaired)) (pairedFname stub)
      oracle records
    exact ⟨true, _, rfl, inv.1, fun s hs => (inv.2.1 s hs).2.2.1, inv.2.2⟩
  | reference =>
    have hv := href rfl
    have inv := routeFold_poolInv refKeyOf (refFnameK stub refs) oracle records
    exact ⟨true, _, SplitReference_valid hv, inv.1,
      fun s hs => (inv.2.1 s hs).2.2.1, inv.2.2⟩
  | tagged tg =>
    have he := SplitTag_eq stub tg oracle records
    have inv := routeFold_poolInv (tagKeyFn tg (lockedClass tg records))
      (tagFname stub tg) oracle records
    refine ⟨tagSuccess (lockedClass tg records), _, ?_, inv.1,
      fun s hs => (inv.2.1 s hs).2.2.1, inv.2.2⟩
    simp only [runSplit]
    rw [he]

/-- Claim C1, witness: the amended routing theorem applied to a concrete
mapped-mode run of one record. -/
theorem C1_witness :
    (SplitMode.mapped = SplitMode.reference →
      ∀ al ∈ ([⟨true, false, 0, []⟩] : List BamAlignment),
        0 ≤ al.RefID ∧ al.RefID.toNat < ([] : List RefData).length) ∧
    ∃ ok pool, runSplit SplitMode.mapped ("s") [] (fun _ => true)
        [⟨true, false, 0, []⟩] = RunOutcome.completed ok pool ∧
      (pool.map Sink.key).Nodup ∧
      (∀ s ∈ pool, s.records =
        ([⟨true, false, 0, []⟩] : List BamAlignment).filter
          (fun r => decide (modeKey SplitMode.mapped [⟨true, false, 0, []⟩] r =
            some s.key))) ∧
      (∀ al ∈ ([⟨true, false, 0, []⟩] : List BamAlignment), ∀ k,
        modeKey SplitMode.mapped [⟨true, false, 0, []⟩] al = some k →
          k ∈ pool.map Sink.key) :=
  ⟨by decide, C1_routing SplitMode.mapped ("s") [] (fun _ => true)
    [⟨true, false, 0, []⟩] (by decide)⟩

/-- Claim C2, counterexample: a tag-mode run on tag RG whose first tagged
record has the text storage class 'Z' with value lib1, followed by a record
carrying RG with the numeric storage class 'i': the run does not abort — it
reports success (exit status 0) and no storage-class error, refuting the
claimed unsupported/inconsistent-type failure. -/
theorem C2_counterexample :
    (SplitTag ("s") ("RG") (fun _ => true)
        [⟨true, true, 0, [("RG", TagValue.tagStr 'Z' ("lib1"))]⟩,
         ⟨true, true, 0, [("RG", TagValue.tagInt 'i' 5)]⟩]).1 = true ∧
    (SplitTag ("s") ("RG") (fun _ => true)
        [⟨true, true, 0, [("RG", TagValue.tagStr 'Z' ("lib1"))]⟩,
         ⟨true, true, 0, [("RG", TagValue.tagInt 'i' 5)]⟩]).2.2 = none ∧
    toolExitCode (SplitTag ("s") ("RG") (fun _ => true)
        [⟨true, true, 0, [("RG", TagValue.tagStr 'Z' ("lib1"))]⟩,
         ⟨true, true, 0, [("RG", TagValue.tagInt 'i' 5)]⟩]).1 = 0 := by
  exact ⟨by decide, by decide, by decide⟩

/-- Claim C2 (amended): once the text path is locked in by the first record
carrying the named tag (storage class A, Z or H), the tag-mode run has no
abort path at all: whatever storage classes the remaining records carry for
that tag — in particular a numeric one — the run completes with success, no
storage-class error is reported, and the pool is the text-path routing of
the whole input (a later record of a different storage class is read as if
it were text, or skipped; it is never an error). -/
theorem C2_no_abort_after_lock (stub tg : String) (oracle : String → Bool)
    (pre : List BamAlignment) (al : BamAlignment) (rest : List BamAlignment)
    (c : Char) (hpre : ∀ r ∈ pre, r.GetTagType tg = none)
    (hal : al.GetTagType tg = some c)
    (hc : (c == 'A' || c == 'Z' || c == 'H') = true) :
    SplitTag stub tg oracle (pre ++ al :: rest) =
      (true, routeFold (strKeyOf tg) (tagFname stub tg) oracle
        (pre ++ al :: rest) [], none) := by
  have hl : lockedClass tg (pre ++ al :: rest) = some c := by
    rw [lockedClass_append hpre, lockedClass_cons_some hal]
  have hsup : classSupported c = true := by
    simp only [classSupported, Bool.or_eq_true, beq_iff_eq]
    simp only [Bool.or_eq_true, beq_iff_eq] at hc
    tauto
  have he := SplitTag_eq stub tg oracle (pre ++ al :: rest)
  rw [hl, tagKeyFn_string hc] at he
  have hsucc : tagSuccess (some c) = true := by simp [tagSuccess, hsup]
  have hrep : tagReported (some c) = none := by simp [tagReported, hsup]
  rw [hsucc, hrep] at he
  exact he

/-- Claim C2, witness: the amended no-abort theorem applied to the concrete
scenario of the claim (text value lib1 first, numeric storage class later). -/
theorem C2_witness :
    SplitTag ("s") ("RG") (fun _ => true)
        ([] ++ ⟨true, true, 0, [("RG", TagValue.tagStr 'Z' ("lib1"))]⟩ ::
          [⟨true, true, 0, [("RG", TagValue.tagInt 'i' 5)]⟩]) =
      (true, routeFold (strKeyOf ("RG")) (tagFname ("s") ("RG")) (fun _ => true)
        ([] ++ ⟨true, true, 0, [("RG", TagValue.tagStr 'Z' ("lib1"))]⟩ ::
          [⟨true, true, 0, [("RG", TagValue.tagInt 'i' 5)]⟩]) [], none) :=
  C2_no_abort_after_lock ("s") ("RG") (fun _ => true) []
    ⟨true, true, 0, [("RG", TagValue.tagStr 'Z' ("lib1"))]⟩
    [⟨true, true, 0, [("RG", TagValue.tagInt 'i' 5)]⟩] 'Z'
    (by decide) (by decide) (by decide)

/-- Claim C3: in tag mode, when the first record carrying the named tag has
a storage class outside the four recognized families, the run stops reading
at once — its outcome does not depend on the remaining records, which are
universally quantified here — reports the offending storage-class code on
the error channel, opens no sink, and returns failure (exit status 1); by
contrast a run over the same prefix, in which every record merely lacks the
tag, is success with no error report. -/
theorem C3_unsupported_class (stub tg : String) (oracle : String → Bool)
    (pre : List BamAlignment) (al : BamAlignment) (rest : List BamAlignment)
    (c : Char) (hpre : ∀ r ∈ pre, r.GetTagType tg = none)
    (hal : al.GetTagType tg = some c) (hc : classSupported c = false) :
    SplitTag stub tg oracle (pre ++ al :: rest) = (false, [], some c) ∧
    toolExitCode (SplitTag stub tg oracle (pre ++ al :: rest)).1 = 1 ∧
    SplitTag stub tg oracle pre = (true, [], none) := by
  have hl : lockedClass tg (pre ++ al :: rest) = some c := by
    rw [lockedClass_append hpre, lockedClass_cons_some hal]
  have he := SplitTag_eq stub tg oracle (pre ++ al :: rest)
  rw [hl, tagKeyFn_unsupported hc, routeFold_none] at he
  have hsucc : tagSuccess (some c) = false := by simp [tagSuccess, hc]
  have hrep : tagReported (some c) = some c := by simp [tagReported, hc]
  rw [hsucc, hrep] at he
  exact ⟨he, by rw [he]; rfl, SplitTag_all_absent stub tg oracle hpre⟩

/-- Claim C3, witness: the unsupported-class theorem applied to a concrete
run whose first tagged record has the storage-class code B (the array type,
unknown to this tool). -/
theorem C3_witness :
    SplitTag ("s") ("XX") (fun _ => true)
        ([⟨true, false, 0, []⟩] ++
          ⟨true, false, 0, [("XX", TagValue.tagOther 'B')]⟩ ::
          [⟨true, false, 0, [("XX", TagValue.tagInt 'i' 7)]⟩]) =
      (false, [], some 'B') :=
  (C3_unsupported_class ("s") ("XX") (fun _ => true) [⟨true, false, 0, []⟩]
    ⟨true, false, 0, [("XX", TagValue.tagOther 'B')]⟩
    [⟨true, false, 0, [("XX", TagValue.tagInt 'i' 7)]⟩] 'B'
    (by decide) (by decide) (by decide)).1

/-- Claim C4, counterexample: a mapped-mode run in which opening the sink's
destination fails (the oracle refuses every filename) still reports success
— exit status 0, not the claimed failure — and the sink whose open failed is
kept in the pool with the record routed to it; the driver never examines the
open outcome. -/
theorem C4_counterexample :
    SplitMapped ("s") (fun _ => false) [⟨true, false, 0, []⟩] =
      (true, [⟨PartitionKey.boolKey true, "s.MAPPED.bam", false,
        [⟨true, false, 0, []⟩]⟩]) ∧
    toolExitCode (SplitMapped ("s") (fun _ => false)
      [⟨true, false, 0, []⟩]).1 = 0 := by
  exact ⟨by decide, by decide⟩

/-- Claim C4 (amended): the split driver does not detect writer-open failure:
it never reads the open outcome.  For every oracle the run reports success,
and every sink of the final pool carries the outcome of its own open exactly
as the oracle gave it for the filename the sink was opened at — a sink whose
open failed is retained, routed to, and torn down with the rest instead of
making the run fail.  Shown for the mapped driver and the unsigned-integer
tag driver cited by the claim; the remaining drivers share the same loop. -/
theorem C4_open_failure_ignored (stub tg : String) (oracle : String → Bool)
    (records : List BamAlignment) (al : BamAlignment)
    (rest : List BamAlignment) :
    (SplitMapped stub oracle records).1 = true ∧
    (∀ s ∈ (SplitMapped stub oracle records).2, s.openOk = oracle s.filename) ∧
    (SplitTag_UInt stub tg oracle al rest).1 = true ∧
    (∀ s ∈ (SplitTag_UInt stub tg oracle al rest).2,
      s.openOk = oracle s.filename) := by
  refine ⟨rfl, ?_, ?_, ?_⟩
  · intro s hs
    have inv := routeFold_poolInv
      (fun al => some (PartitionKey.boolKey al.IsMapped)) (mappedFname stub)
      oracle records
    obtain ⟨hf, ho, _, _⟩ := inv.2.1 s hs
    rw [ho, hf]
  · rw [SplitTag_UInt_eq]
  · intro s hs
    rw [SplitTag_UInt_eq] at hs
    have inv := routeFold_poolInv (uintKeyOf tg) (tagFname stub tg) oracle
      (al :: rest)
    obtain ⟨hf, ho, _, _⟩ := inv.2.1 s hs
    rw [ho, hf]

/-- Claim C4, witness: the amended theorem applied to a concrete run with a
failing oracle. -/
theorem C4_witness :
    (SplitMapped ("s2") (fun _ => false) [⟨false, true, 1, []⟩]).1 = true :=
  (C4_open_failure_ignored ("s2") ("RG") (fun _ => false)
    [⟨false, true, 1, []⟩] ⟨false, true, 1, []⟩ []).1

/-- Claim C5: in mapped mode and in paired mode the run partitions its input
across at most two sinks: the records written across the sinks are, as a
multiset, exactly the input records (a permutation), and distinct sinks are
disjoint — every record is written to exactly one of the two, keyed by its
boolean property. -/
theorem C5_two_way_partition (stub : String) (oracle : String → Bool)
    (records : List BamAlignment) :
    ((SplitMapped stub oracle records).2.length ≤ 2 ∧
     ((SplitMapped stub oracle records).2.flatMap Sink.records).Perm records ∧
     ∀ s ∈ (SplitMapped stub oracle records).2,
       ∀ t ∈ (SplitMapped stub oracle records).2, s ≠ t →
         ∀ r ∈ s.records, r ∉ t.records) ∧
    ((SplitPaired stub oracle records).2.length ≤ 2 ∧
     ((SplitPaired stub oracle records).2.flatMap Sink.records).Perm records ∧
     ∀ s ∈ (SplitPaired stub oracle records).2,
       ∀ t ∈ (SplitPaired stub oracle records).2, s ≠ t →
         ∀ r ∈ s.records, r ∉ t.records) :=
  ⟨boolSplit_partition (fun al => al.IsMapped) (mappedFname stub) oracle records,
   boolSplit_partition (fun al => al.IsPaired) (pairedFname stub) oracle records⟩

/-- Claim C5, witness: the partition theorem applied to a concrete two-record
run. -/
theorem C5_witness :
    (SplitMapped ("s") (fun _ => true)
      [⟨true, false, 0, []⟩, ⟨false, false, -1, []⟩]).2.length ≤ 2 :=
  (C5_two_way_partition ("s") (fun _ => true)
    [⟨true, false, 0, []⟩, ⟨false, false, -1, []⟩]).1.1

/-- Claim C6, counterexample: reference mode over one record whose reference
id is -1 (an unmapped record) with a one-entry reference table: the id -1 is
observed on a record, yet no sink is created for it — the run ends aborted
with an empty pool — refuting that exactly one sink is created per distinct
observed reference id. -/
theorem C6_counterexample :
    SplitReference ("s") [⟨"chr1", 100⟩] (fun _ => true)
        [⟨false, false, -1, []⟩] = RunOutcome.aborted [] ∧
    ([⟨false, false, -1, []⟩] : List BamAlignment).map BamAlignment.RefID =
      [-1] := by
  exact ⟨by decide, by decide⟩

/-- Claim C6 (amended): provided every record's reference id is a valid index
into the reference table (an observed out-of-range id — e.g. -1 — aborts the
run at its first occurrence with no sink created for it, see
C6_counterexample), reference-mode splitting creates exactly one sink per
distinct reference id actually observed among the records and none for any
other id: the pool's keys are pairwise distinct, and a key is in the pool
exactly when some input record carries its reference id — never for an id
that appears only in the reference table. -/
theorem C6_reference_sinks (stub : String) (refs : List RefData)
    (oracle : String → Bool) (records : List BamAlignment)
    (h : ∀ r ∈ records, 0 ≤ r.RefID ∧ r.RefID.toNat < refs.length) :
    ∃ pool, SplitReference stub refs oracle records =
        RunOutcome.completed true pool ∧
      (pool.map Sink.key).Nodup ∧
      ∀ k, k ∈ pool.map Sink.key ↔
        ∃ r ∈ records, PartitionKey.refKey r.RefID = k := by
  have inv := routeFold_poolInv refKeyOf (refFnameK stub refs) oracle records
  refine ⟨_, SplitReference_valid h, inv.1, fun k => ⟨?_, ?_⟩⟩
  · intro hk
    obtain ⟨s, hs, hks⟩ := List.mem_map.1 hk
    obtain ⟨r, hr, hkr⟩ := pool_key_witness inv hs
    refine ⟨r, hr, ?_⟩
    simp only [refKeyOf, Option.some.injEq] at hkr
    rw [hkr, hks]
  · rintro ⟨r, hr, rfl⟩
    exact inv.2.2 r hr _ rfl

/-- Claim C6, witness: the amended theorem applied to a concrete run of two
records on the same reference. -/
theorem C6_witness :
    ∃ pool, SplitReference ("s") [⟨"chr1", 100⟩] (fun _ => true)
        [⟨true, false, 0, []⟩, ⟨true, true, 0, []⟩] =
        RunOutcome.completed true pool ∧
      (pool.map Sink.key).Nodup ∧
      ∀ k, k ∈ pool.map Sink.key ↔
        ∃ r ∈ ([⟨true, false, 0, []⟩, ⟨true, true, 0, []⟩] :
          List BamAlignment), PartitionKey.refKey r.RefID = k :=
  C6_reference_sinks ("s") [⟨"chr1", 100⟩] (fun _ => true)
    [⟨true, false, 0, []⟩, ⟨true, true, 0, []⟩] (by decide)

/-- Claim C7: in tag mode, when the source is exhausted without any record
carrying the named tag, the run reports success — exit status 0 — creates
zero sinks and reports no storage-class error. -/
theorem C7_tag_absent_success (stub tg : String) (oracle : String → Bool)
    (records : List BamAlignment)
    (h : ∀ al ∈ records, al.GetTagType tg = none) :
    SplitTag stub tg oracle records = (true, [], none) ∧
    toolExitCode (SplitTag stub tg oracle records).1 = 0 := by
  have he := SplitTag_all_absent stub tg oracle h
  exact ⟨he, by rw [he]; rfl⟩

/-- Claim C7, witness: the theorem applied to a concrete run whose records
carry no tag at all. -/
theorem C7_witness :
    SplitTag ("s") ("RG") (fun _ => true)
        [⟨true, false, 0, []⟩, ⟨false, true, 1, []⟩] = (true, [], none) :=
  (C7_tag_absent_success ("s") ("RG") (fun _ => true)
    [⟨true, false, 0, []⟩, ⟨false, true, 1, []⟩] (by decide)).1

/-- Claim C8: the filename stub resolver applies first-match-wins priority —
an explicit stub verbatim; otherwise a supplied input filename with the
suffix after its last dot removed, the whole name kept when it has no dot,
and a dot in an earlier directory component (with none in the filename)
making the wrong suffix be stripped; otherwise the timestamp-derived string.
In particular the resolver maps the input filename /a/b/file.bam to
/a/b/file. -/
theorem C8_stub_resolution :
    (∀ (settings : SplitSettings) (rawTime : String),
       settings.HasCustomOutputStub = true →
       DetermineOutputFilenameStub settings rawTime =
         settings.CustomOutputStub) ∧
    (∀ (settings : SplitSettings) (rawTime : String),
       settings.HasCustomOutputStub = false →
       settings.HasInputFilename = true →
       DetermineOutputFilenameStub settings rawTime =
         RemoveFilenameExtension settings.InputFilename) ∧
    (∀ (settings : SplitSettings) (rawTime : String),
       settings.HasCustomOutputStub = false →
       settings.HasInputFilename = false →
       DetermineOutputFilenameStub settings rawTime =
         GetTimestampString rawTime) ∧
    RemoveFilenameExtension ("/a/b/file.bam") = "/a/b/file" ∧
    (∀ fn : String, '.' ∉ fn.data → RemoveFilenameExtension fn = fn) ∧
    RemoveFilenameExtension ("/a.b/file") = "/a" := by
  refine ⟨?_, ?_, ?_, by decide, ?_, by decide⟩
  · intro s rt h
    simp [DetermineOutputFilenameStub, h]
  · intro s rt h1 h2
    simp [DetermineOutputFilenameStub, h1, h2]
  · intro s rt h1 h2
    simp [DetermineOutputFilenameStub, h1, h2]
  · intro fn h
    simp [RemoveFilenameExtension, rfindDot_eq_none h]

/-- Claim C8, witness: the resolver theorem applied to the concrete cases of
the claim — an explicit stub used verbatim, the input filename
/a/b/file.bam resolving to /a/b/file, and a dot-free name kept unchanged. -/
theorem C8_witness :
    DetermineOutputFilenameStub
      ⟨false, true, false, false, false, false, "custom", "", ""⟩ ("x") =
      "custom" ∧
    DetermineOutputFilenameStub
      ⟨true, false, false, false, false, false, "", "/a/b/file.bam", ""⟩
      ("x") = "/a/b/file" ∧
    RemoveFilenameExtension ("noext") = "noext" := by
  refine ⟨C8_stub_resolution.1 _ ("x") rfl, ?_, ?_⟩
  · rw [C8_stub_resolution.2.1 _ ("x") rfl rfl]
    exact C8_stub_resolution.2.2.2.1
  · exact C8_stub_resolution.2.2.2.2.1 ("noext") (by decide)

/-- Claim C9, counterexample: the human-readable timestamp (the ctime image,
which by the C standard always ends in a newline) still contains a
whitespace character after stub generation — only spaces are replaced by
underscores, the trailing newline survives — refuting that the resulting
stub contains no whitespace characters. -/
theorem C9_counterexample :
    GetTimestampString ("Sat Oct 11 00:00:00 2026\n") =
      "Sat_Oct_11_00:00:00_2026\n" ∧
    ((GetTimestampString ("Sat Oct 11 00:00:00 2026\n")).data.any
      (fun c => c.isWhitespace)) = true := by
  exact ⟨by decide, by decide⟩

/-- Claim C9 (amended): the timestamp stub generator replaces every space
character of the human-readable timestamp by an underscore — the result
contains no space character and has the same length as the raw timestamp —
but only the space character is replaced, so other whitespace (the trailing
newline of the ctime image) survives into the stub (see
C9_counterexample). -/
theorem C9_space_replacement (rawTime : String) :
    ((GetTimestampString rawTime).data.all (fun c => decide (c ≠ ' '))) = true ∧
    (GetTimestampString rawTime).data.length = rawTime.data.length := by
  exact ⟨replaceSpaces_no_space rawTime.data, replaceSpaces_length rawTime.data⟩

/-- Claim C10: opening a reference-mode sink performs a bounds-checked lookup
of the record's reference id in the shared reference table: the lookup
succeeds for every id that is a valid index; and when the first record of an
out-of-range id (such as -1, carried by unmapped records) arrives, the
lookup fails and the run aborts before any sink for that key was opened —
the pool at the abort holds no sink keyed by that id. -/
theorem C10_bounds_checked_lookup (stub : String) (refs : List RefData)
    (oracle : String → Bool) (pre : List BamAlignment) (al : BamAlignment)
    (rest : List BamAlignment)
    (hpre : ∀ r ∈ pre, 0 ≤ r.RefID ∧ r.RefID.toNat < refs.length)
    (hal : ¬(0 ≤ al.RefID ∧ al.RefID.toNat < refs.length)) :
    (∀ i : Int, 0 ≤ i → i.toNat < refs.length →
      (vectorAt refs i).isSome = true) ∧
    vectorAt refs al.RefID = none ∧
    ∃ pool, SplitReference stub refs oracle (pre ++ al :: rest) =
        RunOutcome.aborted pool ∧
      PartitionKey.refKey al.RefID ∉ pool.map Sink.key := by
  refine ⟨?_, vectorAt_invalid hal, ?_⟩
  · intro i h0 hlt
    obtain ⟨rd, hrd⟩ := vectorAt_valid h0 hlt
    rw [hrd]
    rfl
  · obtain ⟨h1, h2⟩ := SplitReference_abort rest hpre hal
    exact ⟨_, h1, h2⟩

/-- Claim C10, witness: the lookup theorem applied to a concrete run whose
second record is unmapped (reference id -1) after a valid first record. -/
theorem C10_witness :
    vectorAt [⟨"chr1", 100⟩] (-1) = none ∧
    ∃ pool, SplitReference ("s") [⟨"chr1", 100⟩] (fun _ => true)
        ([⟨true, false, 0, []⟩] ++ ⟨false, false, -1, []⟩ :: []) =
        RunOutcome.aborted pool ∧
      PartitionKey.refKey (-1) ∉ pool.map Sink.key := by
  have h := C10_bounds_checked_lookup ("s") [⟨"chr1", 100⟩] (fun _ => true)
    [⟨true, false, 0, []⟩] ⟨false, false, -1, []⟩ [] (by decide) (by decide)
  exact ⟨h.2.1, h.2.2⟩

end BamTools
